import Mathlib

/-!
Formal model of the AcadBling expense tracker (source: `Acad-BlingFinal.py`).

The numeric domain of the program (Python floats) is modelled by `ℚ`: every
amount that appears in the claims is an exact decimal, and all arithmetic used
by the program (field operations and integer powers) is carried out exactly.
Python functions that can raise are modelled as `Option`-valued functions, with
`none` standing for "an exception escaped this expression"; functions wrapped in
a `try ... except` that degrades to a default are total.
-/

namespace AcadBling

/-- The whitespace test used by Python's `str.strip` (ASCII fragment). -/
def pyIsSpace (c : Char) : Bool :=
  c = ' ' || c = '\t' || c = '\n' || c = '\r' || c = '\x0b' || c = '\x0c'

/-- Python `str.strip` on a list of characters: drop whitespace from both ends. -/
def pyStripList (l : List Char) : List Char :=
  ((l.dropWhile pyIsSpace).reverse.dropWhile pyIsSpace).reverse

/-- Python `str.strip` on strings. -/
def pyStrip (s : String) : String :=
  String.mk (pyStripList s.data)

/-- The Unicode decimal-digit value of a character (category Nd), as used by
both Python's `str.isdigit` and `float()`: ASCII digits plus, from the
modeled repertoire, the Arabic-Indic, Extended Arabic-Indic, Devanagari,
Bengali, Thai and fullwidth digit blocks. Characters outside the repertoire
are treated as non-digits; every theorem whose truth could depend on a
character's digit status confines itself, by hypothesis or concrete input,
to characters the repertoire classifies exactly. -/
def ndVal? (c : Char) : Option ℕ :=
  if c.isDigit then some (c.toNat - 48)
  else if 0x660 ≤ c.toNat && c.toNat ≤ 0x669 then some (c.toNat - 0x660)
  else if 0x6F0 ≤ c.toNat && c.toNat ≤ 0x6F9 then some (c.toNat - 0x6F0)
  else if 0x966 ≤ c.toNat && c.toNat ≤ 0x96F then some (c.toNat - 0x966)
  else if 0x9E6 ≤ c.toNat && c.toNat ≤ 0x9EF then some (c.toNat - 0x9E6)
  else if 0xE50 ≤ c.toNat && c.toNat ≤ 0xE59 then some (c.toNat - 0xE50)
  else if 0xFF10 ≤ c.toNat && c.toNat ≤ 0xFF19 then some (c.toNat - 0xFF10)
  else none

/-- Characters with the Unicode digit property that are not decimal digits
(modeled repertoire: superscripts, subscripts, circled digits):
`str.isdigit` accepts them, but `float()` rejects them. -/
def digitNotDecimal (c : Char) : Bool :=
  c = '¹' || c = '²' || c = '³' || c.toNat == 0x2070
    || (0x2074 ≤ c.toNat && c.toNat ≤ 0x2079)
    || (0x2080 ≤ c.toNat && c.toNat ≤ 0x2089)
    || (0x2460 ≤ c.toNat && c.toNat ≤ 0x2468)

/-- Python's `str.isdigit` on one character: decimal digits of any script
plus the digit-property characters. -/
def pyIsDigit (c : Char) : Bool := (ndVal? c).isSome || digitNotDecimal c

/-- The character filter of `safe_float`: `ch.isdigit() or ch in ".-"`, with
`isdigit` the Unicode test. -/
def keepChar (c : Char) : Bool := pyIsDigit c || c = '.' || c = '-'

/-- The filter the spec describes: ASCII digits, `.` and `-` only. -/
def asciiKeep (c : Char) : Bool := c.isDigit || c = '.' || c = '-'

/-- Numeric value of a list of ASCII decimal digit characters (used by the
date parsers, whose digit handling is ASCII in every input they accept). -/
def digitsVal (l : List Char) : ℕ :=
  l.foldl (fun acc c => 10 * acc + (c.toNat - 48)) 0

/-- Numeric value of a list of decimal digit characters of any script. -/
def decDigitsVal (l : List Char) : ℕ :=
  l.foldl (fun acc c => 10 * acc + (ndVal? c).getD 0) 0

/-- Python `float()` on an unsigned token of decimal digits and `.`: digits
with at most one decimal point and at least one digit somewhere. `"5."`,
`".5"` parse; `""`, `"."`, `"1.2.3"` and tokens holding a non-decimal digit
character (such as `'²'`) do not. -/
def parseUnsignedDec (l : List Char) : Option ℚ :=
  match l.splitOn '.' with
  | [a] =>
      if !a.isEmpty && a.all (fun c => (ndVal? c).isSome) then
        some (decDigitsVal a)
      else none
  | [a, b] =>
      if (!a.isEmpty || !b.isEmpty) && a.all (fun c => (ndVal? c).isSome)
          && b.all (fun c => (ndVal? c).isSome) then
        some ((decDigitsVal a : ℚ) + (decDigitsVal b : ℚ) / 10 ^ b.length)
      else none
  | _ => none

/-- Python `float()` on a token of digit characters, `.` and `-`, i.e. on any
string `safe_float` can pass to it: an optional leading minus sign followed
by an unsigned decimal token; `none` models `ValueError`. -/
def pyFloatOfCleaned (l : List Char) : Option ℚ :=
  match l with
  | '-' :: rest => (parseUnsignedDec rest).map (fun q => -q)
  | _ => parseUnsignedDec l

/-- `safe_float` (source lines 156-172): strip the input, keep only
`isdigit` characters, `.` and `-`, and parse; an empty or unparsable residue
yields `0.0`. The `try/except` wrapper makes the function total. -/
def safe_float (s : String) : ℚ :=
  let cleaned := (pyStripList s.data).filter keepChar
  if cleaned.isEmpty then 0 else (pyFloatOfCleaned cleaned).getD 0

/-- The amount-normalization algorithm exactly as the spec words it: keep the
characters that are ASCII digits, `.` or `-`, in order, parse the filtered
string as a signed decimal number, and fall back to `0.0` when the filtered
string is empty or does not parse. Stated from the spec, for comparison with
`safe_float`. -/
def normalizeAmountSpec (s : String) : ℚ :=
  (pyFloatOfCleaned (s.data.filter asciiKeep)).getD 0

/-- Gregorian leap-year test, as used by Python's `datetime` validation. -/
def isLeapYear (y : ℕ) : Bool :=
  y % 4 == 0 && (y % 100 != 0 || y % 400 == 0)

/-- Number of days of month `m` (1-12) in year `y`. -/
def daysInMonth (y m : ℕ) : ℕ :=
  if m == 2 then (if isLeapYear y then 29 else 28)
  else if m == 4 || m == 6 || m == 9 || m == 11 then 30
  else 31

/-- Validity of a calendar date as checked by `datetime(year, month, day)`:
year 1-9999, month 1-12, day within the month. -/
def validDate (y m d : ℕ) : Bool :=
  1 ≤ y && y ≤ 9999 && 1 ≤ m && m ≤ 12 && 1 ≤ d && d ≤ daysInMonth y m

/-- Stage 1 of `date_to_month_key`:
`datetime.strptime(date_str, "%Y-%m-%d")`. `%Y` matches exactly four digits,
`%m` and `%d` one or two digits, the dashes are literal, the whole string must
be consumed, and the resulting date must be calendar-valid. -/
def parseYMD (s : String) : Option (ℕ × ℕ × ℕ) :=
  match s.data.splitOn '-' with
  | [ys, ms, ds] =>
      if ys.length == 4 && ys.all Char.isDigit
          && (ms.length == 1 || ms.length == 2) && ms.all Char.isDigit
          && (ds.length == 1 || ds.length == 2) && ds.all Char.isDigit then
        let y := digitsVal ys
        let m := digitsVal ms
        let d := digitsVal ds
        if validDate y m d then some (y, m, d) else none
      else none
  | _ => none

/-- A `HH`, `HH:MM` or `HH:MM:SS` time token with in-range components, the
time part accepted by `datetime.fromisoformat`. -/
def validTime (l : List Char) : Bool :=
  match l with
  | [h1, h2] => [h1, h2].all Char.isDigit && digitsVal [h1, h2] ≤ 23
  | [h1, h2, ':', m1, m2] =>
      [h1, h2, m1, m2].all Char.isDigit
        && digitsVal [h1, h2] ≤ 23 && digitsVal [m1, m2] ≤ 59
  | [h1, h2, ':', m1, m2, ':', s1, s2] =>
      [h1, h2, m1, m2, s1, s2].all Char.isDigit
        && digitsVal [h1, h2] ≤ 23 && digitsVal [m1, m2] ≤ 59
        && digitsVal [s1, s2] ≤ 59
  | _ => false

/-- Stage 2 of `date_to_month_key`: `datetime.fromisoformat(date_str)`,
modelled from its documented contract: a calendar-valid `YYYY-MM-DD` with
two-digit month and day, optionally followed by a single separator character
and a time; sub-second and timezone suffixes are not modelled (no claim
depends on them). Returns the year and month. -/
def parseISO (s : String) : Option (ℕ × ℕ) :=
  match s.data with
  | y1 :: y2 :: y3 :: y4 :: '-' :: m1 :: m2 :: '-' :: d1 :: d2 :: rest =>
      if [y1, y2, y3, y4, m1, m2, d1, d2].all Char.isDigit then
        let y := digitsVal [y1, y2, y3, y4]
        let m := digitsVal [m1, m2]
        let d := digitsVal [d1, d2]
        if validDate y m d then
          match rest with
          | [] => some (y, m)
          | _ :: t => if validTime t then some (y, m) else none
        else none
      else none
  | _ => none

/-- Python `int()` applied to one dash-free segment: surrounding whitespace is
stripped, an optional `+` sign is allowed, and the rest must be a nonempty
digit run (PEP-515 underscore separators are not modelled). `none` models
`ValueError`. -/
def pyIntSegment (l : List Char) : Option ℕ :=
  let t := pyStripList l
  let t2 := match t with | '+' :: r => r | _ => t
  if !t2.isEmpty && t2.all Char.isDigit then some (digitsVal t2) else none

/-- Zero-pad a numeral on the left to width `n`, as `f"{v:0nd}"` does for a
nonnegative value. -/
def padZeros (n : ℕ) (s : String) : String :=
  String.mk (List.replicate (n - s.length) '0') ++ s

/-- The `f"{year:04d}-{month:02d}"` month key. -/
def formatYM (y m : ℕ) : String :=
  padZeros 4 (Nat.repr y) ++ "-" ++ padZeros 2 (Nat.repr m)

/-- Stage 3 of `date_to_month_key`: split on `-`, drop blank segments, convert
every remaining segment with `int()` (any failure aborts the whole stage, the
list comprehension raising as a unit), and use the first two values as year
and month when at least two exist. -/
def parseParts (s : String) : Option String :=
  let segs := (s.data.splitOn '-').filter (fun p => !(pyStripList p).isEmpty)
  match segs.mapM pyIntSegment with
  | some (y :: m :: _) => some (formatYM y m)
  | some _ => none
  | none => none

/-- `date_to_month_key` (source lines 139-154): try strict `%Y-%m-%d`, then
ISO-8601, then the dash-split fallback; each later stage runs only when the
earlier one failed, and the nested `try/except` structure makes the function
total, with `none` as the "no key" sentinel. -/
def date_to_month_key (s : String) : Option String :=
  match parseYMD s with
  | some (y, m, _) => some (formatYM y m)
  | none =>
      match parseISO s with
      | some (y, m) => some (formatYM y m)
      | none => parseParts s

/-- An expense record as produced by `read_expenses`: the four CSV columns. -/
structure Row where
  Date : String
  Category : String
  Amount : String
  Note : String
  deriving DecidableEq, Repr

/-- The category key used by the aggregations: `r["Category"] or
"Uncategorized"` — Python's `or` replaces a blank category with the literal. -/
def catOf (r : Row) : String :=
  if r.Category = "" then "Uncategorized" else r.Category

/-- The month key used by the aggregations:
`date_to_month_key(r["Date"]) or today` — rows whose date yields no key are
bucketed into the current month, passed here as `today`. -/
def monthOf (today : String) (r : Row) : String :=
  (date_to_month_key r.Date).getD today

/-- The numeric amount of a row: `safe_float(r["Amount"])`. -/
def rowAmount (r : Row) : ℚ := safe_float r.Amount

/-- Sum of the normalized amounts of all rows. -/
def grandTotal (rows : List Row) : ℚ := (rows.map rowAmount).sum

/-- Value accumulated for key `c` by the `defaultdict(float)` loops of
`ChartsWindow.update_charts`: the sum of amounts of the rows with that key. -/
def keyTotal (key : Row → String) (rows : List Row) (c : String) : ℚ :=
  ((rows.filter (fun r => key r == c)).map rowAmount).sum

/-- `category_totals[c]` of `update_charts`. -/
def categoryTotal (rows : List Row) (c : String) : ℚ := keyTotal catOf rows c

/-- `month_totals[m]` of `update_charts`. -/
def monthlyTotal (today : String) (rows : List Row) (m : String) : ℚ :=
  keyTotal (monthOf today) rows m

/-- First-occurrence deduplication: the iteration order of a Python dict whose
keys were inserted while scanning a list. -/
def firstKeys {α : Type} [DecidableEq α] : List α → List α
  | [] => []
  | a :: t => a :: firstKeys (t.filter (fun x => x ≠ a))
termination_by l => l.length
decreasing_by
  exact Nat.lt_succ_of_le (List.length_filter_le _ t)

/-- The distinct category keys of the rows, in first-encountered order: the
key set of the `category_totals` dict. -/
def categoriesOf (rows : List Row) : List String := firstKeys (rows.map catOf)

/-- The distinct month keys of the rows, in first-encountered order. -/
def monthKeysOf (today : String) (rows : List Row) : List String :=
  firstKeys (rows.map (monthOf today))

/-- `category_totals.items()`: pairs (category, total) in dict insertion
order, i.e. first-encountered order of the categories. -/
def catItems (rows : List Row) : List (String × ℚ) :=
  (categoriesOf rows).map (fun c => (c, categoryTotal rows c))

/-- Insert an item into a descending-sorted list, before the first entry
whose value does not exceed it. Used to model Python's stable
`sorted(..., key=second component, reverse=True)`. -/
def insertDesc (x : String × ℚ) : List (String × ℚ) → List (String × ℚ)
  | [] => [x]
  | y :: ys => if y.2 ≤ x.2 then x :: y :: ys else y :: insertDesc x ys

/-- Stable descending sort by the second component. A stable sort's output is
determined by its specification, so this models
`sorted(category_totals.items(), key=lambda kv: kv[1], reverse=True)`. -/
def sortDesc : List (String × ℚ) → List (String × ℚ)
  | [] => []
  | x :: xs => insertDesc x (sortDesc xs)

/-- `sorted_categories` of `update_charts`. -/
def sortedCategories (rows : List Row) : List (String × ℚ) :=
  sortDesc (catItems rows)

/-- `sorted_categories[:n]`: the top `n` categories by total. -/
def topCategories (n : ℕ) (rows : List Row) : List (String × ℚ) :=
  (sortedCategories rows).take n

/-- The pie-chart labels and sizes before the no-data placeholder: the top 6
categories, with an `"Others"` bucket holding the residual sum appended when
more than 6 categories exist. -/
def pieRaw (rows : List Row) : List String × List ℚ :=
  let sc := sortedCategories rows
  let top := sc.take 6
  if 6 < sc.length then
    (top.map Prod.fst ++ ["Others"],
     top.map Prod.snd ++ [((sc.drop 6).map Prod.snd).sum])
  else (top.map Prod.fst, top.map Prod.snd)

/-- The labels and sizes actually fed to `ax_pie.pie`: when the slice total is
zero the input is replaced by a single `"No data"` slice of size 1. -/
def pieChartInput (rows : List Row) : List String × List ℚ :=
  let p := pieRaw rows
  if p.2.sum = 0 then (["No data"], [1]) else p

/-- Python `int()` truncation of a rational toward zero. -/
def pyTrunc (q : ℚ) : ℤ := if 0 ≤ q then ⌊q⌋ else ⌈q⌉

/-- `periods = int(years * 12)` of `SIPDialog.on_calculate`. -/
def sipPeriods (years : ℚ) : ℤ := pyTrunc (years * 12)

/-- `monthly_rate = (annual_pct / 100.0) / 12.0`. -/
def sipMonthlyRate (annualPct : ℚ) : ℚ := annualPct / 100 / 12

/-- The annuity-due factor
`(((1+monthly_rate)**periods - 1) / monthly_rate) * (1+monthly_rate)`.
The exponent is the nonnegative `periods` (the computation is reached only
after validation has established `years > 0`). -/
def annuityFactor (annualPct years : ℚ) : ℚ :=
  let mr := sipMonthlyRate annualPct
  (((1 + mr) ^ (sipPeriods years).toNat - 1) / mr) * (1 + mr)

/-- The future value computed by `SIPDialog.on_calculate` (source lines
251-256): `P * periods` at zero monthly rate, else the annuity-due formula. -/
def sipFV (P annualPct years : ℚ) : ℚ :=
  if sipMonthlyRate annualPct = 0 then P * ((sipPeriods years : ℤ) : ℚ)
  else P * annuityFactor annualPct years

/-- The required monthly contribution for a goal (source lines 265-274):
`goal / periods` at zero monthly rate, else `goal` divided by the annuity-due
factor. The computation sits inside a `try/except: pass`, so a
`ZeroDivisionError` (zero periods, or a zero factor) produces no value:
that is the `none` case. -/
def sipRequiredMonthly (goal annualPct years : ℚ) : Option ℚ :=
  if sipMonthlyRate annualPct = 0 then
    if ((sipPeriods years : ℤ) : ℚ) = 0 then none
    else some (goal / ((sipPeriods years : ℤ) : ℚ))
  else
    if annuityFactor annualPct years = 0 then none
    else some (goal / annuityFactor annualPct years)

/-- Outcome of one press of "Calculate & Suggest": either the invalid-input
message box (and no computation), or a result holding the displayed future
value and, when the goal block produced one, the required monthly amount. -/
inductive SIPOutcome where
  | inputError : SIPOutcome
  | result (fv : ℚ) (goalLine : Option ℚ) : SIPOutcome
  deriving DecidableEq, Repr

/-- `SIPDialog.on_calculate` (source lines 235-279) at the parse boundary:
each text field is given as the outcome of Python `float()` on it (`none` =
non-numeric). `goalTxt = none` models an empty goal field (falsy, so the goal
block is skipped); `some g` a nonempty field whose parse outcome is `g`. A
parse failure of P, rate or years, or `P < 0`, or `years ≤ 0`, raises inside
the validated `try` and shows the error box; a failing goal parse or goal
division is swallowed by its own `except: pass`, only omitting the goal
line. -/
def on_calculate (Pp rp yp : Option ℚ) (goalTxt : Option (Option ℚ)) :
    SIPOutcome :=
  match Pp, rp, yp with
  | some P, some r, some y =>
      if P < 0 ∨ y ≤ 0 then SIPOutcome.inputError
      else
        SIPOutcome.result (sipFV P r y)
          (match goalTxt with
           | none => none
           | some none => none
           | some (some g) => sipRequiredMonthly g r y)
  | _, _, _ => SIPOutcome.inputError

/-- Header row of `expenses.csv`. -/
def stdHeader : List String := ["Date", "Category", "Amount", "Note"]

/-- `write_expenses` (source lines 95-101). The `csv` module's writer/reader
pair is modelled as a faithful record transport: a file is the list of its
records, each a list of field strings (quoting round-trips field content
exactly), so writing emits the header record followed by one four-field
record per row. -/
def write_expenses (rows : List Row) : List (List String) :=
  stdHeader :: rows.map (fun r => [r.Date, r.Category, r.Amount, r.Note])

/-- `csv.DictReader` field lookup followed by `dict.get(name)`: the value at
the header position of `name`, `none` when the record is too short (the
reader's `restval`) or the header lacks the name. -/
def dictGet (header rec : List String) (name : String) : Option String :=
  match header.findIdx? (fun h => h == name) with
  | some i => rec[i]?
  | none => none

/-- `(r.get(name) or "").strip()` — `None` and `""` are both falsy. -/
def normField (v : Option String) : String := pyStrip (v.getD "")

/-- `(r.get("Amount") or "0").strip()` — a missing or empty cell becomes
`"0"` before stripping. -/
def normAmount (v : Option String) : String :=
  pyStrip (if v.getD "" = "" then "0" else v.getD "")

/-- `read_expenses` (source lines 81-93) on a file given as its record list:
the first record is the `DictReader` header, and every later record yields a
row with each field stripped and the amount defaulted. Missing cells never
raise: they read as `None`. -/
def read_expenses (file : List (List String)) : List Row :=
  match file with
  | [] => []
  | header :: recs =>
      recs.map (fun rec =>
        { Date := normField (dictGet header rec "Date")
          Category := normField (dictGet header rec "Category")
          Amount := normAmount (dictGet header rec "Amount")
          Note := normField (dictGet header rec "Note") })

/-- The normalization `read_expenses` applies to a stored row. -/
def stripRow (r : Row) : Row :=
  { Date := pyStrip r.Date
    Category := pyStrip r.Category
    Amount := pyStrip (if r.Amount = "" then "0" else r.Amount)
    Note := pyStrip r.Note }

/-- Outcome of the save/delete handlers of `EditExpenseDialog`: either the
full row list rewritten to the store, or the "Row unavailable." error with no
write. -/
inductive EditOutcome where
  | written (rows : List Row) : EditOutcome
  | rowUnavailable : EditOutcome
  deriving DecidableEq, Repr

/-- `EditExpenseDialog.on_delete` (source lines 970-981), after confirmation:
re-read rows, and either delete in place and rewrite, or report the stale
index. `i` is the positional index captured at display time. -/
def on_delete (rows : List Row) (i : ℤ) : EditOutcome :=
  if 0 ≤ i ∧ i < rows.length then EditOutcome.written (rows.eraseIdx i.toNat)
  else EditOutcome.rowUnavailable

/-- `EditExpenseDialog.on_save` (source lines 957-968), after its field
validation: re-read rows, and either overwrite row `i` and rewrite the file,
or report the stale index. -/
def on_save (rows : List Row) (i : ℤ) (newRow : Row) : EditOutcome :=
  if 0 ≤ i ∧ i < rows.length then EditOutcome.written (rows.set i.toNat newRow)
  else EditOutcome.rowUnavailable

/-! ### Amount normalization (C1) -/

theorem filter_dropWhile_of_imp {α : Type} {p q : α → Bool}
    (h : ∀ c, p c = true → q c = false) :
    ∀ l : List α, (l.dropWhile p).filter q = l.filter q := by
  intro l
  induction l with
  | nil => rfl
  | cons a t ih =>
      rw [List.dropWhile_cons]
      by_cases hp : p a = true
      · rw [if_pos hp, ih, List.filter_cons, if_neg (by simp [h a hp])]
      · rw [if_neg hp]

theorem filter_keepChar_pyStripList (l : List Char) :
    (pyStripList l).filter keepChar = l.filter keepChar := by
  have h : ∀ c, pyIsSpace c = true → keepChar c = false := by
    intro c hc
    simp only [pyIsSpace, Bool.or_eq_true, decide_eq_true_eq] at hc
    rcases hc with ((((h | h) | h) | h) | h) | h <;> subst h <;> rfl
  unfold pyStripList
  rw [List.filter_reverse, filter_dropWhile_of_imp h, List.filter_reverse,
    filter_dropWhile_of_imp h, List.reverse_reverse]

theorem pyIsDigit_ascii {c : Char} (h : c.toNat < 128) :
    pyIsDigit c = c.isDigit := by
  have h1 : ¬(1632 ≤ c.toNat) := by omega
  have h2 : ¬(1776 ≤ c.toNat) := by omega
  have h3 : ¬(2406 ≤ c.toNat) := by omega
  have h4 : ¬(2534 ≤ c.toNat) := by omega
  have h5 : ¬(3664 ≤ c.toNat) := by omega
  have h6 : ¬(65296 ≤ c.toNat) := by omega
  have h7 : ¬(8308 ≤ c.toNat) := by omega
  have h8 : ¬(8320 ≤ c.toNat) := by omega
  have h9 : ¬(9312 ≤ c.toNat) := by omega
  have h0 : c.toNat ≠ 8304 := by omega
  have hb1 : c ≠ '¹' := fun he => by subst he; exact absurd h (by decide)
  have hb2 : c ≠ '²' := fun he => by subst he; exact absurd h (by decide)
  have hb3 : c ≠ '³' := fun he => by subst he; exact absurd h (by decide)
  by_cases hd : c.isDigit
  · simp [pyIsDigit, ndVal?, hd]
  · simp [pyIsDigit, ndVal?, digitNotDecimal, hd, h1, h2, h3, h4, h5, h6,
      h7, h8, h9, h0, hb1, hb2, hb3]

theorem keepChar_eq_asciiKeep {c : Char}
    (h : c.toNat < 128 ∨ c ∈ ['₹', '€', '£', '¥']) :
    keepChar c = asciiKeep c := by
  rcases h with h | h
  · rw [keepChar, asciiKeep, pyIsDigit_ascii h]
  · fin_cases h <;> rfl

theorem safe_float_eq_spec_of_safe {x : String}
    (hx : ∀ c ∈ x.data, c.toNat < 128 ∨ c ∈ ['₹', '€', '£', '¥']) :
    safe_float x = normalizeAmountSpec x := by
  have hfil : x.data.filter keepChar = x.data.filter asciiKeep :=
    List.filter_congr (fun c hc => keepChar_eq_asciiKeep (hx c hc))
  unfold safe_float normalizeAmountSpec
  rw [filter_keepChar_pyStripList, hfil]
  cases hc : x.data.filter asciiKeep with
  | nil => rfl
  | cons a t => rfl

/-- C1 counterexample: Python's `isdigit` keeps Unicode decimal digits and
`float()` parses them by value, so the program returns their numeric value
where the claim's ASCII filter-parse returns `0.0`: on the Arabic-Indic
numerals `"٥٠٠"` the program yields `500.0`, the ASCII description `0.0`,
refuting the claim's universal ASCII reading. -/
theorem safe_float_unicode_digits_cex :
    safe_float "٥٠٠" = 500 ∧ normalizeAmountSpec "٥٠٠" = 0 := by
  refine ⟨?_, rfl⟩
  rw [show safe_float "٥٠٠" = ((500 : ℕ) : ℚ) from rfl]
  norm_num

/-- C1 (amended): on every input string whose characters are ASCII or among
the app's own currency symbols `₹ € £ ¥` — in particular every amount string
the program itself writes — `safe_float` returns the number obtained by
keeping only the ASCII digits, `.` and `-` of the input in order and parsing
the filtered string as a signed decimal number, `0.0` for an empty or
unparsable residue; it is total (never raises), and the five documented
examples hold. Inputs holding non-ASCII digit characters are excluded, the
program keeping and parsing those digits instead (see the counterexample). -/
theorem safe_float_normalizes_amounts :
    (∀ x : String, (∀ c ∈ x.data, c.toNat < 128 ∨ c ∈ ['₹', '€', '£', '¥']) →
        safe_float x = normalizeAmountSpec x) ∧
      safe_float "₹500.00" = 500 ∧ safe_float "$1,234.50" = 1234.5 ∧
      safe_float " 300 " = 300 ∧ safe_float "" = 0 ∧ safe_float "abc" = 0 := by
  refine ⟨fun x hx => safe_float_eq_spec_of_safe hx, ?_, ?_, ?_, rfl, rfl⟩
  · rw [show safe_float "₹500.00"
        = ((500 : ℕ) : ℚ) + ((0 : ℕ) : ℚ) / 10 ^ (2 : ℕ) from rfl]
    norm_num
  · rw [show safe_float "$1,234.50"
        = ((1234 : ℕ) : ℚ) + ((50 : ℕ) : ℚ) / 10 ^ (2 : ℕ) from rfl]
    norm_num
  · rw [show safe_float " 300 " = ((300 : ℕ) : ℚ) from rfl]
    norm_num

/-- Witness for C1 (amended) at `"$1,234.50"`, whose characters are all
ASCII. -/
theorem safe_float_normalizes_amounts_witness :
    safe_float "$1,234.50" = normalizeAmountSpec "$1,234.50" :=
  safe_float_normalizes_amounts.1 "$1,234.50" (by decide)

/-! ### Month-key derivation (C2) -/

/-- C2: `date_to_month_key` attempts, in order, strict `YYYY-MM-DD` parsing,
generic ISO-8601 parsing, and the dash-split fallback, each later stage only
when the earlier stage failed to parse, returning the `none` sentinel when
all fail; it is a total function (never raises), and the documented examples
hold. -/
theorem date_to_month_key_stages :
    (∀ s y m d, parseYMD s = some (y, m, d) →
        date_to_month_key s = some (formatYM y m)) ∧
    (∀ s y m, parseYMD s = none → parseISO s = some (y, m) →
        date_to_month_key s = some (formatYM y m)) ∧
    (∀ s, parseYMD s = none → parseISO s = none →
        date_to_month_key s = parseParts s) ∧
    date_to_month_key "2024-03-15" = some "2024-03" ∧
    date_to_month_key "2024-03" = some "2024-03" ∧
    date_to_month_key "not-a-date" = none := by
  refine ⟨?_, ?_, ?_, by decide, by decide, by decide⟩
  · intro s y m d h
    simp [date_to_month_key, h]
  · intro s y m h1 h2
    simp [date_to_month_key, h1, h2]
  · intro s h1 h2
    simp [date_to_month_key, h1, h2]

/-- Witness for C2: the staged description applied at `"2024-03"`, where the
first two stages fail and the dash-split fallback answers. -/
theorem date_to_month_key_stages_witness :
    date_to_month_key "2024-03" = parseParts "2024-03" :=
  date_to_month_key_stages.2.2.1 "2024-03" rfl rfl

/-! ### Conservation of the grand total across groupings (C3) -/

theorem sum_filter_add_sum_filter_not_bool {α : Type} (p : α → Bool)
    (f : α → ℚ) (l : List α) :
    ((l.filter p).map f).sum + ((l.filter (fun x => !p x)).map f).sum
      = (l.map f).sum := by
  induction l with
  | nil => simp
  | cons a t ih =>
      cases hp : p a
      · simp only [List.filter_cons, hp, Bool.not_false, if_neg, if_pos,
          Bool.false_eq_true, ite_false, ite_true, List.map_cons, List.sum_cons]
        rw [add_left_comm, ih]
      · simp only [List.filter_cons, hp, Bool.not_true, Bool.false_eq_true,
          ite_false, ite_true, List.map_cons, List.sum_cons]
        rw [add_assoc, ih]

theorem sum_fiberwise (key : Row → String) :
    ∀ (keys : List String) (rows : List Row),
      (∀ r ∈ rows, key r ∈ keys) → keys.Nodup →
      (keys.map (fun c => keyTotal key rows c)).sum = (rows.map rowAmount).sum := by
  intro keys
  induction keys with
  | nil =>
      intro rows h _
      cases rows with
      | nil => simp
      | cons r t => exact absurd (h r (by simp)) (List.not_mem_nil _)
  | cons c rest ih =>
      intro rows h hnd
      rw [List.nodup_cons] at hnd
      rw [List.map_cons, List.sum_cons]
      have hfib : ∀ c' ∈ rest,
          keyTotal key rows c'
            = keyTotal key (rows.filter (fun r => !(key r == c))) c' := by
        intro c' hc'
        unfold keyTotal
        rw [List.filter_filter]
        have hpq : rows.filter (fun r => key r == c')
            = rows.filter (fun r => (key r == c') && !(key r == c)) := by
          apply List.filter_congr
          intro r _
          cases hk : key r == c'
          · simp
          · have hkey : key r = c' := by simpa using hk
            have hne : c' ≠ c := fun hcc => hnd.1 (hcc ▸ hc')
            simp [hkey, hne]
        rw [hpq]
      have hmaps : rest.map (fun c' => keyTotal key rows c')
          = rest.map (fun c' =>
              keyTotal key (rows.filter (fun r => !(key r == c))) c') :=
        List.map_congr_left hfib
      rw [hmaps, ih (rows.filter (fun r => !(key r == c)))
        (by
          intro r hr
          rw [List.mem_filter] at hr
          have := h r hr.1
          rw [List.mem_cons] at this
          rcases this with hc0 | hrest
          · exfalso
            have hb := hr.2
            simp [hc0] at hb
          · exact hrest)
        hnd.2]
      exact sum_filter_add_sum_filter_not_bool (fun r => key r == c) rowAmount rows

theorem mem_firstKeys {α : Type} [DecidableEq α] (l : List α) (a : α) :
    a ∈ firstKeys l ↔ a ∈ l := by
  induction l using firstKeys.induct with
  | case1 => simp [firstKeys]
  | case2 b t ih =>
      rw [firstKeys]
      simp only [List.mem_cons, ih, List.mem_filter, decide_eq_true_eq]
      constructor
      · rintro (h | ⟨h, _⟩)
        · exact Or.inl h
        · exact Or.inr h
      · rintro (h | h)
        · exact Or.inl h
        · by_cases hb : a = b
          · exact Or.inl hb
          · exact Or.inr ⟨h, hb⟩

theorem nodup_firstKeys {α : Type} [DecidableEq α] (l : List α) :
    (firstKeys l).Nodup := by
  induction l using firstKeys.induct with
  | case1 => simp [firstKeys]
  | case2 b t ih =>
      rw [firstKeys, List.nodup_cons]
      refine ⟨fun hb => ?_, ih⟩
      have hmem := (mem_firstKeys _ _).1 hb
      rw [List.mem_filter] at hmem
      exact absurd hmem.2 (by simp)

theorem categories_sum_eq_grandTotal (rows : List Row) :
    ((categoriesOf rows).map (categoryTotal rows)).sum = grandTotal rows :=
  sum_fiberwise catOf (categoriesOf rows) rows
    (fun r hr => (mem_firstKeys _ _).2 (List.mem_map_of_mem catOf hr))
    (nodup_firstKeys _)

theorem months_sum_eq_grandTotal (today : String) (rows : List Row) :
    ((monthKeysOf today rows).map (monthlyTotal today rows)).sum
      = grandTotal rows :=
  sum_fiberwise (monthOf today) (monthKeysOf today rows) rows
    (fun r hr => (mem_firstKeys _ _).2 (List.mem_map_of_mem (monthOf today) hr))
    (nodup_firstKeys _)

/-- C3: for every list of expense rows (and every value of the current
month), the sum of the per-category totals over the distinct categories
equals the sum of the per-month totals over the distinct month keys, and both
equal the sum of `safe_float(r["Amount"])` over all rows; blank categories
are bucketed as `"Uncategorized"` and unparseable dates into the current
month, by the definitions of `catOf` and `monthOf`. -/
theorem totals_conservation (today : String) (rows : List Row) :
    ((categoriesOf rows).map (categoryTotal rows)).sum
        = ((monthKeysOf today rows).map (monthlyTotal today rows)).sum ∧
      ((monthKeysOf today rows).map (monthlyTotal today rows)).sum
        = grandTotal rows :=
  ⟨(categories_sum_eq_grandTotal rows).trans
      (months_sum_eq_grandTotal today rows).symm,
    months_sum_eq_grandTotal today rows⟩

/-! ### Top categories, stable ordering and the pie input (C6) -/

theorem insertDesc_perm (x : String × ℚ) (l : List (String × ℚ)) :
    (insertDesc x l).Perm (x :: l) := by
  induction l with
  | nil => exact List.Perm.refl _
  | cons y ys ih =>
      rw [insertDesc]
      by_cases hy : y.2 ≤ x.2
      · rw [if_pos hy]
      · rw [if_neg hy]
        exact (ih.cons y).trans (List.Perm.swap x y ys)

theorem sortDesc_perm (l : List (String × ℚ)) : (sortDesc l).Perm l := by
  induction l with
  | nil => exact List.Perm.refl _
  | cons x xs ih =>
      rw [sortDesc]
      exact (insertDesc_perm x (sortDesc xs)).trans (ih.cons x)

theorem mem_insertDesc {x y : String × ℚ} {l : List (String × ℚ)}
    (h : y ∈ insertDesc x l) : y = x ∨ y ∈ l := by
  have := (insertDesc_perm x l).mem_iff.1 h
  simpa using this

theorem sorted_insertDesc {x : String × ℚ} {l : List (String × ℚ)}
    (hl : List.Pairwise (fun a b => b.2 ≤ a.2) l) :
    List.Pairwise (fun a b => b.2 ≤ a.2) (insertDesc x l) := by
  induction l with
  | nil => simp [insertDesc]
  | cons y ys ih =>
      rw [List.pairwise_cons] at hl
      rw [insertDesc]
      by_cases hy : y.2 ≤ x.2
      · rw [if_pos hy, List.pairwise_cons]
        refine ⟨?_, List.pairwise_cons.2 hl⟩
        intro a ha
        rw [List.mem_cons] at ha
        rcases ha with rfl | ha
        · exact hy
        · exact le_trans (hl.1 a ha) hy
      · rw [if_neg hy, List.pairwise_cons]
        refine ⟨?_, ih hl.2⟩
        intro a ha
        rcases mem_insertDesc ha with rfl | ha
        · exact le_of_lt (lt_of_not_le hy)
        · exact hl.1 a ha

theorem sorted_sortDesc (l : List (String × ℚ)) :
    List.Pairwise (fun a b => b.2 ≤ a.2) (sortDesc l) := by
  induction l with
  | nil => simp [sortDesc]
  | cons x xs ih =>
      rw [sortDesc]
      exact sorted_insertDesc ih

theorem filter_insertDesc_of_ne {x : String × ℚ} {v : ℚ} (hx : x.2 ≠ v)
    (l : List (String × ℚ)) :
    (insertDesc x l).filter (fun p => decide (p.2 = v))
      = l.filter (fun p => decide (p.2 = v)) := by
  induction l with
  | nil => simp [insertDesc, hx]
  | cons y ys ih =>
      rw [insertDesc]
      by_cases hy : y.2 ≤ x.2
      · rw [if_pos hy]
        simp [List.filter_cons, hx]
      · rw [if_neg hy]
        simp only [List.filter_cons, ih]

theorem filter_insertDesc_of_eq {x : String × ℚ} {v : ℚ} (hx : x.2 = v) :
    ∀ {l : List (String × ℚ)}, List.Pairwise (fun a b => b.2 ≤ a.2) l →
      (insertDesc x l).filter (fun p => decide (p.2 = v))
        = x :: l.filter (fun p => decide (p.2 = v)) := by
  intro l
  induction l with
  | nil =>
      intro _
      simp [insertDesc, hx]
  | cons y ys ih =>
      intro hl
      rw [List.pairwise_cons] at hl
      rw [insertDesc]
      by_cases hy : y.2 ≤ x.2
      · rw [if_pos hy]
        simp [List.filter_cons, hx]
      · rw [if_neg hy]
        have hyv : y.2 ≠ v := fun h => hy (le_of_eq (h.trans hx.symm))
        rw [List.filter_cons, if_neg (by simp [hyv]), ih hl.2,
          List.filter_cons, if_neg (by simp [hyv])]

theorem filter_sortDesc_stable (v : ℚ) (l : List (String × ℚ)) :
    (sortDesc l).filter (fun p => decide (p.2 = v))
      = l.filter (fun p => decide (p.2 = v)) := by
  induction l with
  | nil => rfl
  | cons x xs ih =>
      rw [sortDesc]
      by_cases hx : x.2 = v
      · rw [filter_insertDesc_of_eq hx (sorted_sortDesc xs), ih,
          List.filter_cons, if_pos (by simp [hx])]
      · rw [filter_insertDesc_of_ne hx, ih,
          List.filter_cons, if_neg (by simp [hx])]

theorem sum_snd_catItems (rows : List Row) :
    ((catItems rows).map Prod.snd).sum = grandTotal rows := by
  unfold catItems
  rw [List.map_map]
  exact categories_sum_eq_grandTotal rows

theorem sum_snd_sortedCategories (rows : List Row) :
    ((sortedCategories rows).map Prod.snd).sum = grandTotal rows := by
  have hperm := (sortDesc_perm (catItems rows)).map Prod.snd
  rw [sortedCategories, hperm.sum_eq, sum_snd_catItems]

theorem pieRaw_sizes_sum (rows : List Row) :
    (pieRaw rows).2.sum = grandTotal rows := by
  rw [pieRaw]
  by_cases h6 : 6 < (sortedCategories rows).length
  · rw [if_pos h6]
    simp only [List.sum_append, List.sum_cons, List.sum_nil, add_zero]
    rw [List.map_take, List.map_drop, List.sum_take_add_sum_drop,
      sum_snd_sortedCategories]
  · rw [if_neg h6]
    rw [List.take_of_length_le (by omega), sum_snd_sortedCategories]

/-- C6: the top-category list is stably sorted descending by total (ties keep
first-encountered dict order) and has length at most the requested `n`; with
more than 6 categories the pie input is the explicit top 6 followed by an
`"Others"` bucket worth exactly the residual sum of the remaining categories;
and a zero slice total is replaced by the `"No data"`/1 placeholder at the
chart boundary only — the slice total of `pieRaw` always equals the grand
total, which the placeholder substitution does not alter. -/
theorem pie_aggregation (n : ℕ) (rows : List Row) :
    (topCategories n rows).length ≤ n ∧
    List.Pairwise (fun a b : String × ℚ => b.2 ≤ a.2) (topCategories n rows) ∧
    (∀ v : ℚ, (sortedCategories rows).filter (fun p => decide (p.2 = v))
        = (catItems rows).filter (fun p => decide (p.2 = v))) ∧
    (6 < (sortedCategories rows).length →
      pieRaw rows
        = (((sortedCategories rows).take 6).map Prod.fst ++ ["Others"],
           ((sortedCategories rows).take 6).map Prod.snd
             ++ [(((sortedCategories rows).drop 6).map Prod.snd).sum]) ∧
      (((sortedCategories rows).drop 6).map Prod.snd).sum
        = grandTotal rows
            - (((sortedCategories rows).take 6).map Prod.snd).sum) ∧
    (pieRaw rows).2.sum = grandTotal rows ∧
    (grandTotal rows = 0 → pieChartInput rows = (["No data"], [1])) ∧
    (grandTotal rows ≠ 0 → pieChartInput rows = pieRaw rows) := by
  refine ⟨List.length_take_le n _,
    List.Pairwise.sublist (List.take_sublist n _) (sorted_sortDesc _),
    fun v => filter_sortDesc_stable v (catItems rows),
    ?_, pieRaw_sizes_sum rows, ?_, ?_⟩
  · intro h6
    constructor
    · rw [pieRaw, if_pos h6]
    · have hsplit := List.sum_take_add_sum_drop
        ((sortedCategories rows).map Prod.snd) 6
      rw [← List.map_take, ← List.map_drop, sum_snd_sortedCategories] at hsplit
      linarith
  · intro h0
    rw [pieChartInput, if_pos (by rw [pieRaw_sizes_sum, h0])]
  · intro h0
    rw [pieChartInput, if_neg (by rw [pieRaw_sizes_sum]; exact h0)]

/-- Witness for C6: with no rows the grand total is zero, and the chart input
is the `"No data"` placeholder slice. -/
theorem pie_aggregation_witness : pieChartInput [] = (["No data"], [1]) :=
  (pie_aggregation 0 []).2.2.2.2.2.1 rfl

/-! ### SIP future value (C4) -/

theorem sipPeriods_one : sipPeriods 1 = 12 := by
  rw [sipPeriods, pyTrunc, if_pos (by norm_num)]
  norm_num

theorem sipPeriods_one_toNat : (sipPeriods 1).toNat = 12 := by
  rw [sipPeriods_one]
  rfl

/-- C4: under the validated inputs (`P ≥ 0`, `years > 0`) the calculator
derives `periods = ⌊years*12⌋` (truncation and floor agree on positive
input) and `monthlyRate = r/100/12`, and computes `P*periods` at zero monthly
rate and the annuity-due formula otherwise; numerically, `P = 1000`,
`r = 12`, `years = 1` give `periods = 12`, `monthlyRate = 0.01` and a future
value within a cent of `12,809.33`, and at `r = 0` the value is exactly
`P*periods`. -/
theorem sip_future_value (P r years : ℚ) (hP : 0 ≤ P) (hy : 0 < years) :
    sipPeriods years = ⌊years * 12⌋ ∧
    sipMonthlyRate r = r / 100 / 12 ∧
    sipFV P r years
      = (if sipMonthlyRate r = 0 then P * ((sipPeriods years : ℤ) : ℚ)
         else P * (((1 + sipMonthlyRate r) ^ (sipPeriods years).toNat - 1)
             / sipMonthlyRate r) * (1 + sipMonthlyRate r)) ∧
    sipPeriods 1 = 12 ∧ sipMonthlyRate 12 = 1 / 100 ∧
    |sipFV 1000 12 1 - 12809.33| < 1 / 100 ∧
    sipFV P 0 years = P * ((sipPeriods years : ℤ) : ℚ) := by
  have hfloor : sipPeriods years = ⌊years * 12⌋ := by
    rw [sipPeriods, pyTrunc, if_pos (by nlinarith)]
  have hm12 : sipMonthlyRate 12 = 1 / 100 := by norm_num [sipMonthlyRate]
  refine ⟨hfloor, rfl, ?_, sipPeriods_one, hm12, ?_, ?_⟩
  · rw [sipFV]
    by_cases hmr : sipMonthlyRate r = 0
    · rw [if_pos hmr, if_pos hmr]
    · rw [if_neg hmr, if_neg hmr, annuityFactor]
      ring
  · rw [sipFV, if_neg (by rw [hm12]; norm_num), annuityFactor, hm12,
      sipPeriods_one_toNat]
    rw [abs_sub_lt_iff]
    constructor <;> norm_num
  · rw [sipFV, if_pos (by norm_num [sipMonthlyRate])]

/-- Witness for C4, at `P = 1000`, `r = 12`, `years = 1`. -/
theorem sip_future_value_witness :
    sipPeriods 1 = ⌊(1 : ℚ) * 12⌋ ∧ sipMonthlyRate 12 = 1 / 100 :=
  ⟨(sip_future_value 1000 12 1 (by decide) (by decide)).1,
    (sip_future_value 1000 12 1 (by decide) (by decide)).2.2.2.2.1⟩

/-! ### SIP goal inversion (C5) -/

/-- C5 counterexample: at `P = 1000`, annual rate `-2400`, `years = 1` the
monthly rate is `-2`, so the annuity-due factor is
`(((-1)^12 - 1) / -2) * (-1) = 0`: the computed future value is `0` and the
goal inversion divides by zero, the `except: pass` swallows the
`ZeroDivisionError`, and no required-monthly value is produced — the
inversion does not return `P = 1000`, refuting the claim for arbitrary
rates. -/
theorem sip_goal_inversion_cex :
    sipFV 1000 (-2400) 1 = 0 ∧
      sipRequiredMonthly (sipFV 1000 (-2400) 1) (-2400) 1 = none := by
  have hmr : sipMonthlyRate (-2400) = -2 := by norm_num [sipMonthlyRate]
  have hne : ¬sipMonthlyRate (-2400) = 0 := by rw [hmr]; norm_num
  have hA : annuityFactor (-2400) 1 = 0 := by
    rw [annuityFactor, hmr, sipPeriods_one_toNat]
    norm_num
  have hfv : sipFV 1000 (-2400) 1 = 0 := by
    rw [sipFV, if_neg hne, hA, mul_zero]
  refine ⟨hfv, ?_⟩
  rw [hfv, sipRequiredMonthly, if_neg hne, if_pos hA]

/-- C5 (amended): the goal computation is the exact inverse of the
future-value computation whenever the division it performs is defined: for
`P ≥ 0`, `years > 0` with a positive number of periods, and any rate whose
monthly rate is zero or whose annuity-due factor is nonzero (every rate above
`-1200 %` in particular), `requiredMonthly (FV P r years) r years = P`
exactly. When the factor is zero the division raises and no value is
produced. -/
theorem sip_goal_inversion (P r years : ℚ) (hP : 0 ≤ P) (hy : 0 < years)
    (hper : 0 < sipPeriods years)
    (hfac : sipMonthlyRate r = 0 ∨ annuityFactor r years ≠ 0) :
    sipRequiredMonthly (sipFV P r years) r years = some P := by
  by_cases hmr : sipMonthlyRate r = 0
  · have hne : ¬((sipPeriods years : ℤ) : ℚ) = 0 := by
      exact_mod_cast Int.ne_of_gt hper
    rw [sipFV, if_pos hmr, sipRequiredMonthly, if_pos hmr, if_neg hne,
      mul_div_assoc, div_self hne, mul_one]
  · rcases hfac with h0 | hAne
    · exact absurd h0 hmr
    · rw [sipFV, if_neg hmr, sipRequiredMonthly, if_neg hmr, if_neg hAne,
        mul_div_assoc, div_self hAne, mul_one]

/-- Witness for C5 (amended), at `P = 1000`, `r = 12`, `years = 1`. -/
theorem sip_goal_inversion_witness :
    sipRequiredMonthly (sipFV 1000 12 1) 12 1 = some 1000 :=
  sip_goal_inversion 1000 12 1 (by decide) (by decide)
    (by rw [sipPeriods_one]; norm_num)
    (Or.inr (by
      rw [annuityFactor, sipPeriods_one_toNat]
      norm_num [sipMonthlyRate]))

/-! ### SIP input validation (C7) -/

/-- C7 counterexample: with numeric contribution `1000`, rate `12`, years `1`
and a non-numeric (unparseable) goal field, the calculator still produces its
future-value result with the goal line omitted — the goal block's
`except: pass` swallows the parse failure — rather than signaling an input
error and computing no value. -/
theorem sip_validation_cex :
    on_calculate (some 1000) (some 12) (some 1) (some none)
        = SIPOutcome.result (sipFV 1000 12 1) none ∧
      on_calculate (some 1000) (some 12) (some 1) (some none)
        ≠ SIPOutcome.inputError := by
  have h : on_calculate (some 1000) (some 12) (some 1) (some none)
      = SIPOutcome.result (sipFV 1000 12 1) none := by
    show (if (1000 : ℚ) < 0 ∨ (1 : ℚ) ≤ 0 then SIPOutcome.inputError
      else SIPOutcome.result (sipFV 1000 12 1) none)
        = SIPOutcome.result (sipFV 1000 12 1) none
    rw [if_neg (by decide)]
  refine ⟨h, ?_⟩
  rw [h]
  exact fun hc => SIPOutcome.noConfusion hc

/-- C7 (amended): the calculator signals an input error — and computes no
value, the error outcome carrying none — exactly when the contribution, rate
or years field fails to parse, or the contribution is negative, or the years
are nonpositive; the optional goal field never causes rejection, an
unparseable goal only omitting the goal line of an otherwise computed
result. -/
theorem sip_validation (Pp rp yp : Option ℚ) (goalTxt : Option (Option ℚ)) :
    on_calculate Pp rp yp goalTxt = SIPOutcome.inputError
      ↔ Pp = none ∨ rp = none ∨ yp = none
          ∨ (∃ P, Pp = some P ∧ P < 0) ∨ (∃ y, yp = some y ∧ y ≤ 0) := by
  rcases Pp with _ | P
  · exact iff_of_true rfl (Or.inl rfl)
  rcases rp with _ | r
  · exact iff_of_true rfl (Or.inr (Or.inl rfl))
  rcases yp with _ | y
  · exact iff_of_true rfl (Or.inr (Or.inr (Or.inl rfl)))
  have hred : on_calculate (some P) (some r) (some y) goalTxt
      = if P < 0 ∨ y ≤ 0 then SIPOutcome.inputError
        else SIPOutcome.result (sipFV P r y)
          (match goalTxt with
           | none => none
           | some none => none
           | some (some g) => sipRequiredMonthly g r y) := rfl
  rw [hred]
  by_cases hv : P < 0 ∨ y ≤ 0
  · rw [if_pos hv]
    constructor
    · intro _
      rcases hv with h | h
      · exact Or.inr (Or.inr (Or.inr (Or.inl ⟨P, rfl, h⟩)))
      · exact Or.inr (Or.inr (Or.inr (Or.inr ⟨y, rfl, h⟩)))
    · intro _
      rfl
  · rw [if_neg hv]
    push_neg at hv
    constructor
    · intro hcon
      exact SIPOutcome.noConfusion hcon
    · rintro (h | h | h | ⟨P', hP', hlt⟩ | ⟨y', hy', hle⟩)
      · exact Option.noConfusion h
      · exact Option.noConfusion h
      · exact Option.noConfusion h
      · injection hP' with hPP
        subst hPP
        exact absurd hlt (not_lt.2 hv.1)
      · injection hy' with hyy
        subst hyy
        exact absurd hle (not_le.2 hv.2)

/-! ### CSV round-trip (C8) and read-boundary normalization (C10) -/

theorem map_eq_self_of_mem {α : Type} (f : α → α) :
    ∀ l : List α, (∀ a ∈ l, f a = a) → l.map f = l := by
  intro l
  induction l with
  | nil => intro _; rfl
  | cons a t ih =>
      intro h
      rw [List.map_cons, h a (by simp), ih (fun b hb => h b (by simp [hb]))]

theorem read_write_expenses (rows : List Row) :
    read_expenses (write_expenses rows) = rows.map stripRow := by
  rw [write_expenses, read_expenses, List.map_map]
  exact List.map_congr_left (fun r _ => rfl)

/-- C8 counterexample: a row whose Amount text carries surrounding spaces is
not read back byte-for-byte — `" 300 "` comes back as `"300"` — because
`read_expenses` strips every field at the read boundary, so the round-trip
claim fails on such rows. -/
theorem write_read_roundtrip_cex :
    read_expenses (write_expenses [⟨"2024-01-01", "Food", " 300 ", ""⟩])
        ≠ [⟨"2024-01-01", "Food", " 300 ", ""⟩] ∧
      (read_expenses
          (write_expenses [⟨"2024-01-01", "Food", " 300 ", ""⟩])).map
          Row.Amount
        = ["300"] := by
  constructor
  · decide
  · decide

/-- C8 (amended): writing then reading yields one row per written row in the
same order with every field put through the read normalization `stripRow`
(strip each field, empty amount to `"0"`); the round-trip is the identity —
amount text preserved byte-for-byte — exactly on the rows `stripRow` fixes,
characterized as: all four fields whitespace-stripped and the Amount
nonempty. Every row the app itself writes is such a fixed point; a read
result need not be: a whitespace-only Amount cell reads back as `""` (the
`or "0"` default sees the raw nonempty cell before `strip` empties it),
which is not a fixed point and rewrites to `"0"` on the next round-trip. -/
theorem write_read_roundtrip (rows : List Row) :
    read_expenses (write_expenses rows) = rows.map stripRow ∧
      ((∀ r ∈ rows, stripRow r = r) →
        read_expenses (write_expenses rows) = rows) ∧
      (∀ r : Row, stripRow r = r
        ↔ pyStrip r.Date = r.Date ∧ pyStrip r.Category = r.Category
            ∧ r.Amount ≠ "" ∧ pyStrip r.Amount = r.Amount
            ∧ pyStrip r.Note = r.Note) ∧
      read_expenses (write_expenses [⟨"2024-01-01", "Food", " ", ""⟩])
        = [⟨"2024-01-01", "Food", "", ""⟩] ∧
      read_expenses (write_expenses [⟨"2024-01-01", "Food", "", ""⟩])
        = [⟨"2024-01-01", "Food", "0", ""⟩] := by
  refine ⟨read_write_expenses rows, fun h => ?_, fun r => ?_, by decide,
    by decide⟩
  · rw [read_write_expenses rows]
    exact map_eq_self_of_mem stripRow rows h
  · constructor
    · intro h
      have hD := congrArg Row.Date h
      have hC := congrArg Row.Category h
      have hAm := congrArg Row.Amount h
      have hN := congrArg Row.Note h
      simp only [stripRow] at hD hC hAm hN
      by_cases hA : r.Amount = ""
      · rw [hA, if_pos rfl] at hAm
        exact absurd hAm (by decide)
      · rw [if_neg hA] at hAm
        exact ⟨hD, hC, hA, hAm, hN⟩
    · rintro ⟨hD, hC, hA, hAm, hN⟩
      obtain ⟨d, c, a, n⟩ := r
      simp only [stripRow, if_neg hA]
      rw [Row.mk.injEq]
      exact ⟨hD, hC, hAm, hN⟩

/-- Witness for C8 (amended): a normalized row round-trips unchanged, amount
text `"₹500.00"` preserved byte-for-byte. -/
theorem write_read_roundtrip_witness :
    read_expenses (write_expenses [⟨"2024-01-01", "Food", "₹500.00", "trip"⟩])
      = [⟨"2024-01-01", "Food", "₹500.00", "trip"⟩] :=
  (write_read_roundtrip [⟨"2024-01-01", "Food", "₹500.00", "trip"⟩]).2.1
    (by decide)

/-- C10: `read_expenses` normalizes every row at the read boundary: on a
well-formed file (standard header) it returns exactly one row per record and
never raises; each of Date, Category, Amount and Note is the stripped cell
content, a missing or empty Amount cell is returned as the text `"0"`, and a
missing Date, Category or Note cell is returned as the empty string (the
stripped default of a missing cell). -/
theorem read_expenses_normalizes (recs : List (List String)) :
    (read_expenses (stdHeader :: recs)).length = recs.length ∧
    (∀ (i : ℕ) (rec : List String), recs[i]? = some rec →
      (read_expenses (stdHeader :: recs))[i]?
        = some { Date := pyStrip (rec[0]?.getD "")
                 Category := pyStrip (rec[1]?.getD "")
                 Amount := pyStrip (if rec[2]?.getD "" = "" then "0"
                     else rec[2]?.getD "")
                 Note := pyStrip (rec[3]?.getD "") }) := by
  have hre : read_expenses (stdHeader :: recs)
      = recs.map (fun rec =>
          { Date := normField (dictGet stdHeader rec "Date")
            Category := normField (dictGet stdHeader rec "Category")
            Amount := normAmount (dictGet stdHeader rec "Amount")
            Note := normField (dictGet stdHeader rec "Note") }) := rfl
  constructor
  · rw [hre]
    exact List.length_map _ _
  · intro i rec h
    rw [hre, List.getElem?_map, h]
    rfl

/-- Witness for C10: a record with surrounding spaces and a missing Amount
cell reads back stripped, with Amount `"0"` and Note `""`. -/
theorem read_expenses_normalizes_witness :
    (read_expenses (stdHeader :: [[" 2024-01-01 ", "Food"], ["x"]]))[0]?
      = some ⟨"2024-01-01", "Food", "0", ""⟩ :=
  ((read_expenses_normalizes [[" 2024-01-01 ", "Food"], ["x"]]).2 0
    [" 2024-01-01 ", "Food"] (by decide)).trans (by decide)

/-! ### Index-based edit and delete (C9) -/

/-- C9: when the captured positional index is in range, delete rewrites the
store to the original list with exactly the row at that position removed —
the prefix and suffix are preserved in order — and save replaces exactly that
row; when the index is out of range (the list shrank between display and
apply), both operations surface the row-unavailable error and perform no
write (the error outcome carries no rewritten list). -/
theorem edit_delete_by_index (rows : List Row) (i : ℤ) (newRow : Row) :
    (0 ≤ i → i < (rows.length : ℤ) →
      on_delete rows i
          = EditOutcome.written
              (rows.take i.toNat ++ rows.drop (i.toNat + 1)) ∧
        on_save rows i newRow
          = EditOutcome.written (rows.set i.toNat newRow)) ∧
    (¬(0 ≤ i ∧ i < (rows.length : ℤ)) →
      on_delete rows i = EditOutcome.rowUnavailable ∧
        on_save rows i newRow = EditOutcome.rowUnavailable) := by
  constructor
  · intro h1 h2
    rw [on_delete, if_pos ⟨h1, h2⟩, on_save, if_pos ⟨h1, h2⟩,
      List.eraseIdx_eq_take_drop_succ]
    exact ⟨rfl, rfl⟩
  · intro h
    rw [on_delete, if_neg h, on_save, if_neg h]
    exact ⟨rfl, rfl⟩

/-- Witness for C9: deleting index 0 of a two-row store keeps exactly the
second row. -/
theorem edit_delete_by_index_witness :
    on_delete [⟨"2024-01-01", "A", "1", ""⟩, ⟨"2024-01-02", "B", "2", ""⟩] 0
      = EditOutcome.written [⟨"2024-01-02", "B", "2", ""⟩] :=
  (((edit_delete_by_index
      [⟨"2024-01-01", "A", "1", ""⟩, ⟨"2024-01-02", "B", "2", ""⟩] 0
      ⟨"x", "x", "x", "x"⟩).1 (by decide) (by decide)).1).trans (by decide)

end AcadBling
